import Mathlib

/-!
Verification of the core numerical routines of the `climate-dsl` ocean model
(the pyOM port): the tridiagonal column solver, the topography/mask builder,
the conjugate-gradient surface-pressure solver and its elliptic operator, the
island perimeter walk, the TKE/IDEMIX flux edge handling, and the run driver.

Python floating-point values are modelled as exact rationals (`ℚ`) wherever
the code only adds, multiplies, divides and compares, and as reals (`ℝ`) where
transcendental functions (`np.exp`, `np.log`) appear.  An IEEE NaN is modelled
by `Option` (`none` = NaN) where the code tests `np.isnan`.  A raised Python
exception is modelled by `Except.error`.  NumPy arrays are modelled as total
functions from index tuples, with the written index ranges made explicit.
-/

namespace ClimateDSL

/-! ## Definitions -/

/-- Model object for `src/climate/boussinesq/numerics.py`: the fields of the
`boussine` parameter that `calc_topo` would need (bottom index array, layer
thicknesses, depth and reciprocal-depth fields).  Horizontal indices are
integers, vertical indices as well. -/
structure Boussine where
  nx : ℕ
  ny : ℕ
  nz : ℕ
  kbot : ℤ → ℤ → ℤ
  dzt : ℤ → ℚ
  ht : ℤ → ℤ → ℚ
  hu : ℤ → ℤ → ℚ
  hv : ℤ → ℤ → ℚ
  hur : ℤ → ℤ → ℚ
  hvr : ℤ → ℤ → ℚ

/-- Shallow embedding of `calc_topo` from `src/climate/boussinesq/numerics.py`
(lines 167-226).  The Python function takes the model object `boussine` but its
body never mentions it: every name the body reads or writes (`my_blk_j`,
`kbot`, `onx`, `ny`, `n_pes_j`, `enable_cyclic_x`, `nx`, `nz`, `is_pe`,
`ie_pe`, `js_pe`, `je_pe`, `maskT` before its local binding, `dzt`, `hur`,
`hvr`, ...) resolves to a module global, and the module only defines `np` and
`sys`.  Its first statement, `if my_blk_j == 1:`, therefore raises `NameError`
on every call, before any mask, depth or reciprocal is computed.  (Even past
that point the body could not run: `maskT = 0.0` binds a float scalar and the
mask loop then attempts the item assignment `maskT[i,j,k] = 1.0`; `maskU =
maskT` aliases rather than copies; and `min` applied to NumPy arrays raises
`ValueError`.)  The raise is modelled as `Except.error`; no field of the model
object is ever written, so no updated state is produced. -/
def calc_topo (boussine : Boussine) : Except String Boussine :=
  Except.error "NameError: name my_blk_j is not defined"

/-- Shallow embedding of `solve_tridiag` from
`src/climate/boussinesq/numerics.py` (lines 239-257).  Statement by statement
the body is: `cp = np.zeros(n)`, `dp = np.zeros(n)`, `cp[0] = c[0]/b[0]`,
`dp[0] = d[0]/b[0]`, then the forward-elimination loop over `i = 1..n-1` whose
body is `m = b[i] - cp[i-1]*a[i]`, `fxa = 1.0/m`, `cp[i] = c[i] * fxz`,
`dp[i] = d[i]-dp[i-1]*a[i]`, and finally `x[n-1] = dp[n-1]` followed by the
back-substitution loop writing into `x`.  The names `fxz` and `x` are bound
nowhere in the function or in the module, so the first loop iteration raises
`NameError` at `c[i] * fxz` whenever `n >= 2`; when the loop body never runs
(`n = 1`) the statement `x[n-1] = dp[n-1]` raises `NameError` at `x`; and for
`n = 0` the write `cp[0]` raises `IndexError`.  The values the interpreter
computes before the raise are bound and discarded, exactly as it would. -/
def solve_tridiag (a b c d : List ℚ) (n : ℕ) : Except String (List ℚ) :=
  if n = 0 then
    Except.error "IndexError: index 0 is out of bounds"
  else
    let cp0 : ℚ := c.headD 0 / b.headD 0
    let dp0 : ℚ := d.headD 0 / b.headD 0
    if 2 ≤ n then
      let m : ℚ := b.getD 1 0 - cp0 * a.getD 1 0
      let fxa : ℚ := 1 / m
      have : fxa = fxa := rfl
      have : dp0 = dp0 := rfl
      Except.error "NameError: name fxz is not defined"
    else
      Except.error "NameError: name x is not defined"

/-- Shallow embedding of `fail` from
`src/climate/pyom/core/external/solve_pressure.py` (lines 202-207).  The two
`print` statements do not influence control flow; after them the function
raises `RuntimeError("error is NaN, stopping integration")` exactly when
`np.isnan(estimated_error)` holds, and otherwise returns normally.  The
estimated error is `Option ℚ` with `none` standing for NaN. -/
def fail (n : ℕ) (enable_congrad_verbose : Bool) (estimated_error : Option ℚ)
    (congr_epsilon : ℚ) : Except String Unit :=
  if estimated_error.isNone then
    Except.error "error is NaN, stopping integration"
  else
    Except.ok ()

/-- Shallow embedding of the divergence test inside the iteration loop of
`congrad_surf_press` (`solve_pressure.py` lines 158-167).  With iteration
counter `n`, it rebinds `rs_min` to `abs(rsnew)` when `n == 1`, and when
`n > 2` it updates `rs_min = min(rs_min, abs(rsnew))` and, if
`abs(rsnew) > 100.0 * rs_min`, issues `warnings.warn("solver diverging ...")`
and calls `fail`; when `fail` does not raise, execution falls through to the
convergence test with the updated `rs_min`, which this embedding returns. -/
def divergence_test (n : ℕ) (rs_min rsnew : ℚ) (enable_congrad_verbose : Bool)
    (estimated_error : Option ℚ) (congr_epsilon : ℚ) : Except String ℚ :=
  if n = 1 then Except.ok |rsnew|
  else if 2 < n then
    let rs_min2 := min rs_min |rsnew|
    if 100 * rs_min2 < |rsnew| then
      match fail n enable_congrad_verbose estimated_error congr_epsilon with
      | Except.error e => Except.error e
      | Except.ok _ => Except.ok rs_min2
    else Except.ok rs_min2
  else Except.ok rs_min

/-- Shallow embedding of the loop exit of `congrad_surf_press`
(`solve_pressure.py` lines 192-193): when the `for` loop over
`1..congr_max_iterations` finishes without an early `return`, the function
issues `warnings.warn("max iterations exceeded ...")` and calls `fail`; when
`fail` does not raise, `congrad_surf_press` returns normally to its caller. -/
def max_iterations_exit (n : ℕ) (enable_congrad_verbose : Bool)
    (estimated_error : Option ℚ) (congr_epsilon : ℚ) : Except String Unit :=
  fail n enable_congrad_verbose estimated_error congr_epsilon

/-- Shallow embedding of the convergence test inside the iteration loop of
`congrad_surf_press` (`solve_pressure.py` lines 168-184), over the reals
because of `np.exp`/`np.log`.  The inputs are the iteration counter `n`, the
current weighted step size `step = abs(alpha) * absmax_sfp(p)`, the step size
`step1` recorded at the first iteration, and the tolerance `congr_epsilon`.
The proposition holds exactly when the code executes `return`: at `n == 1`
when `step < congr_epsilon` (having set `step1 = step` and
`estimated_error = step`); at `n >= 2` when `step < congr_epsilon` and, with
`convergence_rate = exp(log(step/step1)/(n-1))` and
`estimated_error = step*convergence_rate/(1.0-convergence_rate)`, also
`estimated_error < congr_epsilon`. -/
def convergence_test (n : ℕ) (step step1 congr_epsilon : ℝ) : Prop :=
  if n = 1 then step < congr_epsilon
  else step < congr_epsilon ∧
    step * Real.exp (Real.log (step / step1) / ((n : ℝ) - 1)) /
      (1 - Real.exp (Real.log (step / step1) / ((n : ℝ) - 1))) < congr_epsilon

/-- Convergence rate exactly as claim C4 words it: `r = exp(log(step/step1)/(n-1))`. -/
noncomputable def aitken_rate (n : ℕ) (step step1 : ℝ) : ℝ :=
  Real.exp (Real.log (step / step1) / ((n : ℝ) - 1))

/-- Aitken-extrapolated asymptotic error estimate as claim C4 words it:
`step * r / (1 - r)` with `r = aitken_rate n step step1`. -/
noncomputable def aitken_error (n : ℕ) (step step1 : ℝ) : ℝ :=
  step * aitken_rate n step step1 / (1 - aitken_rate n step step1)

/-- Shallow embedding of the mixing-length-choice dispatch in
`set_tke_diffusivities` (`src/climate/pyom/core/tke.py` lines 13-54).  The
array arithmetic in each branch cannot raise and does not influence control
flow, so only the branch skeleton is kept: when `enable_tke` is set,
`tke_mxl_choice == 1` and `tke_mxl_choice == 2` select a mixing-length bound,
and any other value raises
`ValueError("unknown mixing length choice in tke_mxl_choice")`; when
`enable_tke` is not set the function only assigns background diffusivities. -/
def set_tke_diffusivities (enable_tke : Bool) (tke_mxl_choice : ℤ) :
    Except String Unit :=
  if enable_tke then
    if tke_mxl_choice = 1 then Except.ok ()
    else if tke_mxl_choice = 2 then Except.ok ()
    else Except.error "unknown mixing length choice in tke_mxl_choice"
  else Except.ok ()

/-- Names of the procedures invoked by `PyOMLegacy.setup` in legacy mode
(`src/climate/pyom/pyom_legacy.py` lines 81-104), in source order.  None of
them is `set_tke_diffusivities`, and none of them validates
`tke_mxl_choice` (the only setup-time configuration check in the repository,
`PyOM.setup` lines 713-715 of `pyom.py`, concerns
`enable_implicit_vert_friction`). -/
def legacy_setup_calls : List String :=
  ["my_mpi_init", "set_parameter", "set_legacy_parameter", "pe_decomposition",
   "allocate_main_module", "allocate_isoneutral_module", "allocate_tke_module",
   "allocate_eke_module", "allocate_idemix_module", "set_grid", "calc_grid",
   "set_coriolis", "calc_beta", "set_topography", "calc_topo",
   "calc_spectral_topo", "set_initial_conditions", "calc_initial_conditions",
   "set_forcing", "streamfunction_init", "check_isoneutral_slope_crit"]

/-- Names of the procedures invoked by each iteration of the `while` loop of
`PyOMLegacy.run` (`pyom_legacy.py` lines 136-202), in source order, for a
configuration with only the TKE model enabled.  `set_tke_diffusivities` is
called at line 146, inside the loop. -/
def legacy_timestep_calls : List String :=
  ["set_forcing", "set_eke_diffusivities", "set_tke_diffusivities",
   "momentum", "thermodynamics", "calculate_velocity_on_wgrid",
   "integrate_tke", "border_exchg_xyz", "setcyclic_xyz", "vertical_velocity"]

/-- Shallow embedding of the time loop of `PyOMLegacy.run` (`pyom_legacy.py`
lines 136-211), tracking the failure mode claim C8 is about.  Of the
procedures called in the loop body, only `set_tke_diffusivities` inspects
`tke_mxl_choice` (its line-53 `raise` is the only use of that setting in the
repository), so the other calls are modelled as completing normally.  The
argument is the number of remaining iterations, `enditt - itt`; the result is
the number of completed time steps or the first raised error. -/
def legacy_time_loop (enable_tke : Bool) (tke_mxl_choice : ℤ) :
    ℕ → Except String ℕ
  | 0 => Except.ok 0
  | k + 1 =>
    match set_tke_diffusivities enable_tke tke_mxl_choice with
    | Except.error e => Except.error e
    | Except.ok _ =>
      match legacy_time_loop enable_tke tke_mxl_choice k with
      | Except.error e => Except.error e
      | Except.ok m => Except.ok (m + 1)

/-- Shallow embedding of `PyOMLegacy.run` (`pyom_legacy.py` lines 112-211):
`setup()` runs first (line 130; its call list is `legacy_setup_calls`, none of
which reads `tke_mxl_choice`, so it completes normally), `enditt` is set to
`itt + runlen/dt_tracer` (line 132), and then the `while itt < enditt` loop
executes `enditt - itt` iterations, each of which calls
`set_tke_diffusivities` (line 146) before the momentum, thermodynamics and
TKE steps. -/
def legacy_run (enable_tke : Bool) (tke_mxl_choice : ℤ) (itt enditt : ℕ) :
    Except String ℕ :=
  legacy_time_loop enable_tke tke_mxl_choice (enditt - itt)

/-- Shallow embedding of the eastward lateral-diffusion flux update of
`integrate_tke` (`src/climate/pyom/core/tke.py` lines 172-174), acting on the
`(nx+4, ny+4, nz)` array `flux_east`.  The slice assignment
`flux_east[:-1,:,:] = K_h_tke * (tke[1:] - tke[:-1]) / (cost * dxu[:-1]) *
maskU[:-1]` writes zonal indices `0..nx+2`; the following statement
`flux_east[-5,:,:] = 0.` (carrying the source comment that this is probably a
mistake in the Fortran code and the first index should be `-1`) zeroes zonal
index `nx - 1`; the last zonal index `nx + 3` is written by neither statement
and keeps whatever value `flux_east` held before the block. -/
def tke_flux_east_update (nx : ℕ) (K_h_tke : ℚ) (tke : ℕ → ℕ → ℕ → ℚ)
    (cost dxu : ℕ → ℚ) (maskU : ℕ → ℕ → ℕ → ℚ)
    (flux_east : ℕ → ℕ → ℕ → ℚ) : ℕ → ℕ → ℕ → ℚ :=
  let sliced : ℕ → ℕ → ℕ → ℚ := fun i j k =>
    if i < nx + 3 then
      K_h_tke * (tke (i + 1) j k - tke i j k) / (cost j * dxu i) * maskU i j k
    else flux_east i j k
  fun i j k => if i = nx - 1 then 0 else sliced i j k

/-- Shallow embedding of the northward lateral-diffusion flux update of
`integrate_tke` (`tke.py` lines 175-177): the slice assignment
`flux_north[:,:-1,:] = K_h_tke * (tke[:,1:] - tke[:,:-1]) / dyu[:-1] *
maskV[:,:-1] * cosu[:-1]` writes meridional indices `0..ny+2`, and
`flux_north[:,-1,:] = 0.` zeroes the last meridional index `ny + 3`. -/
def tke_flux_north_update (ny : ℕ) (K_h_tke : ℚ) (tke : ℕ → ℕ → ℕ → ℚ)
    (cosu dyu : ℕ → ℚ) (maskV : ℕ → ℕ → ℕ → ℚ)
    (flux_north : ℕ → ℕ → ℕ → ℚ) : ℕ → ℕ → ℕ → ℚ :=
  let sliced : ℕ → ℕ → ℕ → ℚ := fun i j k =>
    if j < ny + 3 then
      K_h_tke * (tke i (j + 1) k - tke i j k) / dyu j * maskV i j k * cosu j
    else flux_north i j k
  fun i j k => if j = ny + 3 then 0 else sliced i j k

/-- Shallow embedding of the eastward horizontal-diffusion flux update of
`integrate_idemix` (`src/climate/pyom/core/idemix/idemix.py` lines 96-99):
the slice assignment writes zonal indices `0..nx+2` with
`tau_h * 0.5 * (v0[1:] + v0[:-1]) * (v0[1:]*E_iw[1:] - v0[:-1]*E_iw[:-1]) /
(cost * dxu[:-1]) * maskU[:-1]`, then `flux_east[-5,:,:] = 0.` (same source
comment as in `integrate_tke`) zeroes zonal index `nx - 1`, leaving the last
zonal index `nx + 3` at its prior value. -/
def idemix_flux_east_update (nx : ℕ) (tau_h : ℚ) (v0 E_iw : ℕ → ℕ → ℕ → ℚ)
    (cost dxu : ℕ → ℚ) (maskU : ℕ → ℕ → ℕ → ℚ)
    (flux_east : ℕ → ℕ → ℕ → ℚ) : ℕ → ℕ → ℕ → ℚ :=
  let sliced : ℕ → ℕ → ℕ → ℚ := fun i j k =>
    if i < nx + 3 then
      tau_h * 0.5 * (v0 (i + 1) j k + v0 i j k) *
        (v0 (i + 1) j k * E_iw (i + 1) j k - v0 i j k * E_iw i j k) /
        (cost j * dxu i) * maskU i j k
    else flux_east i j k
  fun i j k => if i = nx - 1 then 0 else sliced i j k

/-- Shallow embedding of the northward horizontal-diffusion flux update of
`integrate_idemix` (`idemix.py` lines 100-103): the slice assignment writes
meridional indices `0..ny+2`, and `flux_north[:,-1,:] = 0.` zeroes the last
meridional index `ny + 3`. -/
def idemix_flux_north_update (ny : ℕ) (tau_h : ℚ) (v0 E_iw : ℕ → ℕ → ℕ → ℚ)
    (cosu dyu : ℕ → ℚ) (maskV : ℕ → ℕ → ℕ → ℚ)
    (flux_north : ℕ → ℕ → ℕ → ℚ) : ℕ → ℕ → ℕ → ℚ :=
  let sliced : ℕ → ℕ → ℕ → ℚ := fun i j k =>
    if j < ny + 3 then
      tau_h * 0.5 * (v0 i (j + 1) k + v0 i j k) *
        (v0 i (j + 1) k * E_iw i (j + 1) k - v0 i j k * E_iw i j k) /
        dyu j * maskV i j k * cosu j
    else flux_north i j k
  fun i j k => if j = ny + 3 then 0 else sliced i j k

/-- Model state for the surface-pressure solver of
`src/climate/pyom/core/external/solve_pressure.py`: the `pyom` attributes
`make_coeff_surf_press` reads.  `maskM` is the local
`maskM = pyom.maskT[:,:,-1]` (the surface tracer mask); `is_pe..ie_pe` and
`js_pe..je_pe` delimit the interior loop exactly as in the source. -/
structure GridP where
  is_pe : ℤ
  ie_pe : ℤ
  js_pe : ℤ
  je_pe : ℤ
  maskM : ℤ → ℤ → ℚ
  hu : ℤ → ℤ → ℚ
  hv : ℤ → ℤ → ℚ
  dxu : ℤ → ℚ
  dxt : ℤ → ℚ
  dyu : ℤ → ℚ
  dyt : ℤ → ℚ
  cost : ℤ → ℚ
  cosu : ℤ → ℚ
  enable_free_surface : Bool
  grav : ℚ
  dt_mom : ℚ

/-- Shallow embedding of `make_coeff_surf_press` (`solve_pressure.py` lines
72-110).  `make_coeff_surf_press g i j ii jj` is the stencil entry
`cf[i,j,ii,jj]`: offsets `ii, jj` in `0..2` refer to the neighbour
`(i+ii-1, j+jj-1)`, as the doc string of the source function states.  Inside
the double loop over `is_pe..ie_pe`, `js_pe..je_pe` the five touched entries
accumulate the masked zonal couplings (`mp`, `mm`), the masked meridional
couplings (`mpy`, `mmy`) and, in free-surface mode, the diagonal reaction
term `-1/(grav*dt_mom**2)*maskM[i,j]`; every other entry keeps its
`np.zeros` value. -/
def make_coeff_surf_press (g : GridP) : ℤ → ℤ → ℤ → ℤ → ℚ := fun i j ii jj =>
  if g.is_pe ≤ i ∧ i ≤ g.ie_pe ∧ g.js_pe ≤ j ∧ j ≤ g.je_pe then
    let mp := g.maskM i j * g.maskM (i + 1) j
    let mm := g.maskM i j * g.maskM (i - 1) j
    let mpy := g.maskM i j * g.maskM i (j + 1)
    let mmy := g.maskM i j * g.maskM i (j - 1)
    if ii = 1 ∧ jj = 1 then
      -(mp * g.hu i j / g.dxu i / g.dxt i / g.cost j ^ 2)
        - mm * g.hu (i - 1) j / g.dxu (i - 1) / g.dxt i / g.cost j ^ 2
        - mpy * g.hv i j / g.dyu j / g.dyt j * g.cosu j / g.cost j
        - mmy * g.hv i (j - 1) / g.dyu (j - 1) / g.dyt j * g.cosu (j - 1) / g.cost j
        + (if g.enable_free_surface then -1 / (g.grav * g.dt_mom ^ 2) * g.maskM i j else 0)
    else if ii = 2 ∧ jj = 1 then
      mp * g.hu i j / g.dxu i / g.dxt i / g.cost j ^ 2
    else if ii = 0 ∧ jj = 1 then
      mm * g.hu (i - 1) j / g.dxu (i - 1) / g.dxt i / g.cost j ^ 2
    else if ii = 1 ∧ jj = 2 then
      mpy * g.hv i j / g.dyu j / g.dyt j * g.cosu j / g.cost j
    else if ii = 1 ∧ jj = 0 then
      mmy * g.hv i (j - 1) / g.dyu (j - 1) / g.dyt j * g.cosu (j - 1) / g.cost j
    else 0
  else 0

/-- Modelled from the spec: `apply_op` is called by `congrad_surf_press` but
is not under src/.  Per the spec, the operator's public operation is a masked
3x3-stencil weighted sum, and the doc string of `make_coeff_surf_press`
states `res = res + cf(...,ii,jj,kk) * p(i+ii,j+jj,k+kk)` with offsets
relative to the centre: `apply_op cf p` at `(i,j)` sums the nine stencil
entries times the neighbouring field values `p (i+ii-1) (j+jj-1)`. -/
def apply_op (cf : ℤ → ℤ → ℤ → ℤ → ℚ) (p : ℤ → ℤ → ℚ) : ℤ → ℤ → ℚ :=
  fun i j =>
    ∑ ii ∈ Finset.Icc (0 : ℤ) 2, ∑ jj ∈ Finset.Icc (0 : ℤ) 2,
      cf i j ii jj * p (i + ii - 1) (j + jj - 1)

/-- Modelled from the spec: `dot_sfp` is called by `congrad_surf_press` but
is not under src/.  Per the spec, dot products are computed only over the
interior owned region (`is_pe..ie_pe`, `js_pe..je_pe`), with no weights. -/
def dot_sfp (g : GridP) (a b : ℤ → ℤ → ℚ) : ℚ :=
  ∑ i ∈ Finset.Icc g.is_pe g.ie_pe, ∑ j ∈ Finset.Icc g.js_pe g.je_pe,
    a i j * b i j

/-- Interior dot product weighted by the T-cell area factor
`dxt[i] * dyt[j] * cost[j]` (the `area_t` factors of `calc_grid` in
`src/climate/boussinesq/numerics.py` line 154). -/
def dot_area (g : GridP) (a b : ℤ → ℤ → ℚ) : ℚ :=
  ∑ i ∈ Finset.Icc g.is_pe g.ie_pe, ∑ j ∈ Finset.Icc g.js_pe g.je_pe,
    g.dxt i * g.dyt j * g.cost j * (a i j * b i j)

/-- Concrete grid for the symmetry counterexample: a `2 x 1` wet interior
(`i = 2,3`, `j = 2`) with unit depths and metric factors but a non-uniform
zonal spacing `dxt = [.., 1, 2, ..]` (`dxt 3 = 2`, otherwise 1). -/
def cexGrid : GridP where
  is_pe := 2
  ie_pe := 3
  js_pe := 2
  je_pe := 2
  maskM := fun i j => if (i = 2 ∨ i = 3) ∧ j = 2 then 1 else 0
  hu := fun _ _ => 1
  hv := fun _ _ => 1
  dxu := fun _ => 1
  dxt := fun i => if i = 3 then 2 else 1
  dyu := fun _ => 1
  dyt := fun _ => 1
  cost := fun _ => 1
  cosu := fun _ => 1
  enable_free_surface := false
  grav := 1
  dt_mom := 1

/-- Interior field supported on the single wet cell `(2,2)` of `cexGrid`. -/
def cexA : ℤ → ℤ → ℚ := fun i j => if i = 2 ∧ j = 2 then 1 else 0

/-- Interior field supported on the single wet cell `(3,2)` of `cexGrid`. -/
def cexB : ℤ → ℤ → ℚ := fun i j => if i = 3 ∧ j = 2 then 1 else 0

/-- Static state of `congrad_surf_press`: the function attribute
`congrad_surf_press.first` (`solve_pressure.py` line 195), set to `True`
when the module loads and cleared by the first call. -/
structure CongradStatic where
  first : Bool

/-- Shallow embedding of the coefficient-cache logic of `congrad_surf_press`
(`solve_pressure.py` lines 129-134).  On a call with `first` set, the code
binds the local `cf = make_coeff_surf_press(pyom)` and clears the flag; on
any later call the flag is `False`, the branch is skipped, and the very next
use `apply_op(cf, pyom.psi[...], res, pyom)` reads the local `cf`, which was
never assigned in this invocation (only the flag, not `cf`, survives between
calls), raising `UnboundLocalError`.  The embedding returns the updated
static state together with the bound coefficient array or the raise. -/
def congrad_surf_press_coeff (g : GridP) (st : CongradStatic) :
    CongradStatic × Except String (ℤ → ℤ → ℤ → ℤ → ℚ) :=
  if st.first then (⟨false⟩, Except.ok (make_coeff_surf_press g))
  else
    (st, Except.error
      "UnboundLocalError: local variable cf referenced before assignment")

/-- Shallow embedding of the per-iteration decision of the island perimeter
walk in `streamfunction_init` (lines 104-144 of
`src/climate/pyom/core/external/streamfunction_init.py`).  Given the
boundary map (`1` land, `-1` perimeter, `0` open ocean), the walker position
`ij` and travel direction `Dir`, it computes the look-ahead cells `ijp` and
`ijp_right` by the direction case split of lines 104-115 (the final case is
east, `Dir = (1,0)`; the walk only ever holds one of the four unit
directions), then selects: go forward on `(-1, 1)`, turn right
(`Dir = [Dir[1], -Dir[0]]`) on `(-1, -1)`, turn left (`Dir = [-Dir[1],
Dir[0]]`) on `(1, 1)` and on `(1, -1)`, and raises
`RuntimeError("unknown situation or lost track")` otherwise (modelled as
`none`). -/
def perimeter_step_dir (boundary_map : ℤ × ℤ → ℤ) (ij Dir : ℤ × ℤ) :
    Option (ℤ × ℤ) :=
  let ijp : ℤ × ℤ :=
    if Dir = (0, 1) then (ij.1, ij.2 + 1)
    else if Dir = (-1, 0) then (ij.1, ij.2)
    else if Dir = (0, -1) then (ij.1 + 1, ij.2)
    else (ij.1 + 1, ij.2 + 1)
  let ijp_right : ℤ × ℤ :=
    if Dir = (0, 1) then (ij.1 + 1, ij.2 + 1)
    else if Dir = (-1, 0) then (ij.1, ij.2 + 1)
    else if Dir = (0, -1) then (ij.1, ij.2)
    else (ij.1 + 1, ij.2)
  if boundary_map ijp = -1 ∧ boundary_map ijp_right = 1 then some Dir
  else if boundary_map ijp = -1 ∧ boundary_map ijp_right = -1 then
    some (Dir.2, -Dir.1)
  else if boundary_map ijp = 1 ∧ boundary_map ijp_right = 1 then
    some (-Dir.2, Dir.1)
  else if boundary_map ijp = 1 ∧ boundary_map ijp_right = -1 then
    some (-Dir.2, Dir.1)
  else none

/-- Shallow embedding of the perimeter-walk loop of `streamfunction_init`
(lines 99-178).  Each iteration decides the new direction
(`perimeter_step_dir`; `none` models the `RuntimeError`), moves
`ij = ij + Dir`, tests `startPos == ij` (line 158), applies the cyclic
wrap-around of lines 164-171 when `enable_cyclic_x` is set, tests
`startPos == ij` again (line 172), and, if the walk continues, increments
the point counter `n` (line 176) and recurses.  The mask writes (lines
149-156, 177) are outputs that do not influence control flow and are not
tracked.  The source loop has no iteration bound, so the embedding carries
fuel; `none` is returned on exhaustion.  On exit it returns the final
`(n, ij, Dir)`. -/
def perimeter_walk (boundary_map : ℤ × ℤ → ℤ) (enable_cyclic_x : Bool)
    (nx : ℤ) (startPos : ℤ × ℤ) :
    ℕ → ℤ × ℤ → ℤ × ℤ → ℕ → Option (ℕ × (ℤ × ℤ) × (ℤ × ℤ))
  | 0, _, _, _ => none
  | fuel + 1, ij, Dir, n =>
    match perimeter_step_dir boundary_map ij Dir with
    | none => none
    | some Dir2 =>
      let ij2 : ℤ × ℤ := (ij.1 + Dir2.1, ij.2 + Dir2.2)
      let ij3 : ℤ × ℤ :=
        if enable_cyclic_x = true ∧ Dir2 = (1, 0) ∧ nx + 1 < ij2.1 then
          (ij2.1 - nx, ij2.2)
        else if enable_cyclic_x = true ∧ Dir2 = (-1, 0) ∧ ij2.1 < 2 then
          (ij2.1 + nx, ij2.2)
        else ij2
      if startPos = ij2 ∨ startPos = ij3 then some (n, ij3, Dir2)
      else
        perimeter_walk boundary_map enable_cyclic_x nx startPos fuel ij3
          Dir2 (n + 1)

/-- Synthetic single square island for the claim's scenario: `L x L` land
cells at `5 <= x, y <= L+4`, the one-cell perimeter ring around them marked
`-1`, open ocean `0` elsewhere — the map encoding `streamfunction_init`
documents at its line 73 (`1` is land, `-1` is perimeter, `0` is ocean). -/
def squareIslandMap (L : ℕ) : ℤ × ℤ → ℤ := fun p =>
  if 5 ≤ p.1 ∧ p.1 ≤ (L : ℤ) + 4 ∧ 5 ≤ p.2 ∧ p.2 ≤ (L : ℤ) + 4 then 1
  else if 4 ≤ p.1 ∧ p.1 ≤ (L : ℤ) + 5 ∧ 4 ≤ p.2 ∧ p.2 ≤ (L : ℤ) + 5 then -1
  else 0

/-- Starting position recorded by `_avoid_cyclic_boundaries` on the square
island map: the scan (`i` ascending, then `j` ascending) first hits
`boundary_map[i,j] == 1 and boundary_map[i,j+1] == -1` at `(5, L+4)` (the
north-west land cell of the top row), initial direction east, and records
`startPos = (i-1, j) = (4, L+4)` with the walker placed at `(i, j)`. -/
def squareIslandStartPos (L : ℕ) : ℤ × ℤ := (4, (L : ℤ) + 4)

/-- Position of the walker at loop entry `t` of the square-island walk:
east along the top row (`t <= L-1`), south along the eastern ring column
(`t <= 2L-1`), west along the southern ring row (`t <= 3L-1`), then north
along the western ring column, reaching `startPos = (4, L+4)` at
`t = 4L-1`. -/
def squareTrajPos (L t : ℕ) : ℤ × ℤ :=
  if t ≤ L - 1 then (5 + (t : ℤ), (L : ℤ) + 4)
  else if t ≤ 2 * L - 1 then ((L : ℤ) + 4, 2 * (L : ℤ) + 3 - (t : ℤ))
  else if t ≤ 3 * L - 1 then (3 * (L : ℤ) + 3 - (t : ℤ), 4)
  else (4, (t : ℤ) - 3 * (L : ℤ) + 5)

/-- Direction of travel used to reach `squareTrajPos L t`. -/
def squareTrajDir (L t : ℕ) : ℤ × ℤ :=
  if t ≤ L - 1 then (1, 0)
  else if t ≤ 2 * L - 1 then (0, -1)
  else if t ≤ 3 * L - 1 then (-1, 0)
  else (0, 1)

/-! ## Theorems -/

/-- C1: the claim states that `solve_tridiag` returns the Thomas-algorithm
solution of the tridiagonal system, and on `a=[0,-1,-1]`, `b=[2,2,2]`,
`c=[-1,-1,0]`, `d=[1,0,1]` the solution of the classic symmetric system
(which is `x = [1,1,1]`).  The code cannot return anything: on this very
input its forward-elimination loop raises `NameError` at the unbound name
`fxz` (the pivot reciprocal was bound to `fxa`), so the claim describes the
obvious intent and the code is a slip. -/
theorem solve_tridiag_classic_input_raises :
    solve_tridiag [0, -1, -1] [2, 2, 2] [-1, -1, 0] [1, 0, 1] 3 =
      Except.error "NameError: name fxz is not defined" := rfl

/-- C2: the claim states that the masks built by `calc_topo` satisfy
`maskU[i,j,k] = min(maskT[i,j,k], maskT[i+1,j,k])` and its analogues and that
`ht` is the `dzt`-weighted column sum of `maskT`.  The code computes no mask
at all: on every input its first statement raises `NameError` at the unbound
module global `my_blk_j`, so the claim describes the intent documented by the
transliterated Fortran comments and the code is an unfinished port. -/
theorem calc_topo_raises_before_masks (boussine : Boussine) :
    calc_topo boussine =
      Except.error "NameError: name my_blk_j is not defined" := rfl

/-- C7: the claim states that after `calc_topo` runs, `hur = 1/hu` where
`hu != 0` and `hur = 0` elsewhere (same for `hvr`/`hv`).  The guarded
divisions at lines 225-226 match that intent, but they are unreachable: the
function raises `NameError` at its first statement on every input, so it
never completes and never establishes the reciprocal-depth relation (`hur`
and `hvr` are also themselves unbound module globals there). -/
theorem calc_topo_never_sets_reciprocal_depth (boussine : Boussine) :
    ¬ ∃ updated : Boussine, calc_topo boussine = Except.ok updated := by
  rintro ⟨updated, h⟩
  simp [calc_topo] at h

/-- C3 counterexample: the claim states that the divergence path
(`abs(rsnew) > 100 * rs_min`) and the max-iteration path both abort by
raising.  At the explicit input `n = 3`, `rs_min = 1`, `rsnew = 200` (so the
divergence test fires: `200 > 100 * 1`) with a non-NaN estimated error, the
divergence path completes with `Except.ok` and iteration continues; likewise
the max-iteration exit returns `Except.ok`, i.e. `congrad_surf_press` returns
normally.  Neither path raises. -/
theorem congrad_fatal_paths_counterexample :
    divergence_test 3 1 200 false (some 1) (1 / 1000000000000) =
        Except.ok 1 ∧
      max_iterations_exit 1000 false (some 1) (1 / 1000000000000) =
        Except.ok () := by
  constructor
  · norm_num [divergence_test, fail]
  · rfl

/-- C3 amended: both fatal-looking paths of `congrad_surf_press` delegate to
`fail`, which raises only when the estimated error is NaN.  With a non-NaN
estimate, a firing divergence test merely warns and continues with the
updated running minimum, and the max-iteration exit warns and returns
normally; with a NaN estimate the max-iteration exit raises. -/
theorem congrad_fatal_paths_raise_only_on_nan (n : ℕ) (rs_min rsnew : ℚ)
    (verbose : Bool) (est : Option ℚ) (eps : ℚ) (hn : 2 < n)
    (hest : est ≠ none) :
    divergence_test n rs_min rsnew verbose est eps =
        Except.ok (min rs_min |rsnew|) ∧
      max_iterations_exit n verbose est eps = Except.ok () ∧
      max_iterations_exit n verbose none eps =
        Except.error "error is NaN, stopping integration" := by
  obtain ⟨v, rfl⟩ : ∃ v, est = some v := by
    cases est with
    | none => exact absurd rfl hest
    | some v => exact ⟨v, rfl⟩
  have hne1 : n ≠ 1 := by omega
  refine ⟨?_, ?_, rfl⟩
  · unfold divergence_test
    rw [if_neg hne1, if_pos hn]
    by_cases hdiv : 100 * min rs_min |rsnew| < |rsnew| <;>
      simp [hdiv, fail]
  · simp [max_iterations_exit, fail]

/-- C3 witness: the amended statement at the concrete input of the
counterexample (`n = 3`, `rs_min = 1`, `rsnew = 200`, estimated error `1`). -/
theorem congrad_fatal_paths_raise_only_on_nan_witness :
    divergence_test 3 1 200 false (some 1) 1 =
        Except.ok (min 1 |(200 : ℚ)|) ∧
      max_iterations_exit 3 false (some 1) 1 = Except.ok () ∧
      max_iterations_exit 3 false none 1 =
        Except.error "error is NaN, stopping integration" :=
  congrad_fatal_paths_raise_only_on_nan 3 1 200 false (some 1) 1
    (by decide) (by decide)

/-- C4: at every iteration `n >= 2`, the convergence test of
`congrad_surf_press` declares convergence (executes `return`) exactly when
the step size is below `congr_epsilon` and the Aitken-extrapolated asymptotic
error `step * r / (1 - r)`, with `r = exp(log(step/step1)/(n-1))`, is also
below `congr_epsilon`; at the first iteration the raw step size below the
tolerance suffices. -/
theorem congrad_convergence_criterion (n : ℕ) (step step1 eps : ℝ)
    (hn : 2 ≤ n) :
    (convergence_test n step step1 eps ↔
        step < eps ∧ aitken_error n step step1 < eps) ∧
      (convergence_test 1 step step1 eps ↔ step < eps) := by
  have hne1 : n ≠ 1 := by omega
  constructor
  · unfold convergence_test aitken_error aitken_rate
    rw [if_neg hne1]
  · unfold convergence_test
    rw [if_pos rfl]

/-- C4 witness: the criterion instantiated at `n = 2`, `step = 0`,
`step1 = 1`, `eps = 1`. -/
theorem congrad_convergence_criterion_witness :
    (convergence_test 2 0 1 1 ↔
        (0 : ℝ) < 1 ∧ aitken_error 2 0 1 < 1) ∧
      (convergence_test 1 0 1 1 ↔ (0 : ℝ) < 1) :=
  congrad_convergence_criterion 2 0 1 1 (by decide)

/-- C8 counterexample: the claim states that an enabled TKE model with
`tke_mxl_choice` neither 1 nor 2 fails at setup, before the time loop.  With
the invalid choice `3` and a zero-length run (`enditt = itt`), setup runs to
completion — `set_tke_diffusivities`, the only place that validates the
choice, is not among the procedures setup calls — and the whole run finishes
without any error being raised. -/
theorem tke_mxl_error_not_at_setup_counterexample :
    ("set_tke_diffusivities" ∉ legacy_setup_calls) ∧
      legacy_run true 3 0 0 = Except.ok 0 := by
  constructor
  · decide
  · rfl

/-- C8 amended: the unsupported-mixing-length `ValueError` is raised from the
first call of `set_tke_diffusivities`, which happens inside the first
iteration of the time-stepping loop of `PyOMLegacy.run`, not at setup: setup
calls no procedure that inspects `tke_mxl_choice`, and any run that performs
at least one time step raises the error during its first step. -/
theorem tke_mxl_error_first_time_step (tke_mxl_choice : ℤ) (itt enditt : ℕ)
    (hchoice1 : tke_mxl_choice ≠ 1) (hchoice2 : tke_mxl_choice ≠ 2)
    (hstep : itt < enditt) :
    ("set_tke_diffusivities" ∉ legacy_setup_calls) ∧
      "set_tke_diffusivities" ∈ legacy_timestep_calls ∧
      legacy_run true tke_mxl_choice itt enditt =
        Except.error "unknown mixing length choice in tke_mxl_choice" := by
  refine ⟨by decide, by decide, ?_⟩
  unfold legacy_run
  obtain ⟨k, hk⟩ : ∃ k, enditt - itt = k + 1 :=
    ⟨enditt - itt - 1, by omega⟩
  rw [hk]
  unfold legacy_time_loop set_tke_diffusivities
  rw [if_pos rfl, if_neg hchoice1, if_neg hchoice2]

/-- C8 witness: the amended statement at the concrete configuration
`tke_mxl_choice = 3`, `itt = 0`, `enditt = 5`. -/
theorem tke_mxl_error_first_time_step_witness :
    ("set_tke_diffusivities" ∉ legacy_setup_calls) ∧
      "set_tke_diffusivities" ∈ legacy_timestep_calls ∧
      legacy_run true 3 0 5 =
        Except.error "unknown mixing length choice in tke_mxl_choice" :=
  tke_mxl_error_first_time_step 3 0 5 (by decide) (by decide) (by decide)

/-- C9: in the lateral TKE diffusion block (and the IDEMIX horizontal
diffusion block), the eastward flux is zeroed at zonal index `nx - 1` (the
fifth-from-last index of the `nx+4`-wide array) while the last zonal index
`nx + 3` keeps its previously held value, and the northward flux is zeroed at
the last meridional index `ny + 3`; every other written entry carries the
computed diffusive flux. -/
theorem tke_idemix_flux_edge_zeroing (nx ny : ℕ) (K_h_tke tau_h : ℚ)
    (tke v0 E_iw maskU maskV flux_east flux_north : ℕ → ℕ → ℕ → ℚ)
    (cost cosu dxu dyu : ℕ → ℚ) (i j k : ℕ)
    (hi : i < nx + 3) (hne : i ≠ nx - 1) :
    tke_flux_east_update nx K_h_tke tke cost dxu maskU flux_east (nx + 3) j k
        = flux_east (nx + 3) j k ∧
      tke_flux_east_update nx K_h_tke tke cost dxu maskU flux_east (nx - 1) j k
        = 0 ∧
      tke_flux_east_update nx K_h_tke tke cost dxu maskU flux_east i j k
        = K_h_tke * (tke (i + 1) j k - tke i j k) / (cost j * dxu i) *
            maskU i j k ∧
      tke_flux_north_update ny K_h_tke tke cosu dyu maskV flux_north i (ny + 3) k
        = 0 ∧
      idemix_flux_east_update nx tau_h v0 E_iw cost dxu maskU flux_east (nx + 3) j k
        = flux_east (nx + 3) j k ∧
      idemix_flux_east_update nx tau_h v0 E_iw cost dxu maskU flux_east (nx - 1) j k
        = 0 ∧
      idemix_flux_north_update ny tau_h v0 E_iw cosu dyu maskV flux_north i (ny + 3) k
        = 0 := by
  have h1 : ¬(nx + 3 = nx - 1) := by omega
  have h2 : ¬(nx + 3 < nx + 3) := by omega
  refine ⟨?_, ?_, ?_, ?_, ?_, ?_, ?_⟩ <;>
    simp [tke_flux_east_update, tke_flux_north_update,
      idemix_flux_east_update, idemix_flux_north_update, h1, h2, hi, hne]

/-- C9 witness: the edge behaviour at the concrete sizes `nx = ny = 4`,
interior index `i = 0`, with distinct constant coefficient fields. -/
theorem tke_idemix_flux_edge_zeroing_witness :
    tke_flux_east_update 4 1 (fun _ _ _ => 5) (fun _ => 1) (fun _ => 3)
        (fun _ _ _ => 1) (fun _ _ _ => 8) (4 + 3) 0 0
        = (fun _ _ _ => (8 : ℚ)) (4 + 3) 0 0 ∧
      tke_flux_east_update 4 1 (fun _ _ _ => 5) (fun _ => 1) (fun _ => 3)
        (fun _ _ _ => 1) (fun _ _ _ => 8) (4 - 1) 0 0 = 0 ∧
      tke_flux_east_update 4 1 (fun _ _ _ => 5) (fun _ => 1) (fun _ => 3)
        (fun _ _ _ => 1) (fun _ _ _ => 8) 0 0 0
        = 1 * ((fun _ _ _ => (5 : ℚ)) (0 + 1) 0 0 -
              (fun _ _ _ => (5 : ℚ)) 0 0 0) /
            ((fun _ => (1 : ℚ)) 0 * (fun _ => (3 : ℚ)) 0) *
            (fun _ _ _ => (1 : ℚ)) 0 0 0 ∧
      tke_flux_north_update 4 1 (fun _ _ _ => 5) (fun _ => 2) (fun _ => 4)
        (fun _ _ _ => 2) (fun _ _ _ => 9) 0 (4 + 3) 0 = 0 ∧
      idemix_flux_east_update 4 1 (fun _ _ _ => 6) (fun _ _ _ => 7)
        (fun _ => 1) (fun _ => 3) (fun _ _ _ => 1) (fun _ _ _ => 8)
        (4 + 3) 0 0 = (fun _ _ _ => (8 : ℚ)) (4 + 3) 0 0 ∧
      idemix_flux_east_update 4 1 (fun _ _ _ => 6) (fun _ _ _ => 7)
        (fun _ => 1) (fun _ => 3) (fun _ _ _ => 1) (fun _ _ _ => 8)
        (4 - 1) 0 0 = 0 ∧
      idemix_flux_north_update 4 1 (fun _ _ _ => 6) (fun _ _ _ => 7)
        (fun _ => 2) (fun _ => 4) (fun _ _ _ => 2) (fun _ _ _ => 9)
        0 (4 + 3) 0 = 0 :=
  tke_idemix_flux_edge_zeroing 4 4 1 1 (fun _ _ _ => 5) (fun _ _ _ => 6)
    (fun _ _ _ => 7) (fun _ _ _ => 1) (fun _ _ _ => 2) (fun _ _ _ => 8)
    (fun _ _ _ => 9) (fun _ => 1) (fun _ => 2) (fun _ => 3) (fun _ => 4)
    0 0 0 (by decide) (by decide)

/-- C10: the claim states that the coefficient array gated by
`congrad_surf_press.first` is built once and that every later call still has
a defined coefficient array to apply.  The flag is indeed cleared by the
first call, but `cf` is a plain local: the second call skips the build branch
and immediately raises `UnboundLocalError` at `apply_op(cf, ...)`, instead of
reusing the coefficients — contradicting the commented Fortran declaration
`real*8, allocatable, save :: cf(:,:,:,:)` the port carries (line 119). -/
theorem congrad_second_call_unbound_cf (g : GridP) :
    (congrad_surf_press_coeff g ⟨true⟩).2
        = Except.ok (make_coeff_surf_press g) ∧
      (congrad_surf_press_coeff g (congrad_surf_press_coeff g ⟨true⟩).1).2
        = Except.error
            "UnboundLocalError: local variable cf referenced before assignment" :=
  ⟨rfl, rfl⟩

/-- C6 counterexample: the claim states that the operator built by
`make_coeff_surf_press` is symmetric under the plain interior dot product for
every pair of interior fields.  On `cexGrid` (two wet interior cells with a
non-uniform zonal spacing `dxt`) and the unit point fields `cexA`, `cexB`,
the two sides are `1` and `1/2`: the stencil couples `(2,2) -> (3,2)` with
weight `hu/(dxu*dxt[2]*cost^2) = 1` but `(3,2) -> (2,2)` with weight
`hu/(dxu*dxt[3]*cost^2) = 1/2`. -/
theorem surf_press_plain_dot_asymmetry :
    dot_sfp cexGrid cexA (apply_op (make_coeff_surf_press cexGrid) cexB) ≠
      dot_sfp cexGrid (apply_op (make_coeff_surf_press cexGrid) cexA) cexB := by
  have h23 : Finset.Icc (2 : ℤ) 3 = {2, 3} := by
    ext x
    simp only [Finset.mem_Icc, Finset.mem_insert, Finset.mem_singleton]
    omega
  have h22 : Finset.Icc (2 : ℤ) 2 = {2} := Finset.Icc_self 2
  have h02 : Finset.Icc (0 : ℤ) 2 = {0, 1, 2} := by
    ext x
    simp only [Finset.mem_Icc, Finset.mem_insert, Finset.mem_singleton]
    omega
  simp only [dot_sfp, apply_op, cexGrid, h23, h22, h02]
  norm_num [Finset.sum_insert, Finset.sum_singleton, make_coeff_surf_press,
    cexGrid, cexA, cexB]

/-- Stencil entry lemmas for `make_coeff_surf_press`: the value of each of
the five touched entries inside the interior loop range, and vanishing of the
corner offsets. -/
theorem cf_entry_east (g : GridP) (i j : ℤ)
    (h : g.is_pe ≤ i ∧ i ≤ g.ie_pe ∧ g.js_pe ≤ j ∧ j ≤ g.je_pe) :
    make_coeff_surf_press g i j 2 1 =
      g.maskM i j * g.maskM (i + 1) j * g.hu i j / g.dxu i / g.dxt i /
        g.cost j ^ 2 := by
  simp only [make_coeff_surf_press, if_pos h]
  norm_num

theorem cf_entry_west (g : GridP) (i j : ℤ)
    (h : g.is_pe ≤ i ∧ i ≤ g.ie_pe ∧ g.js_pe ≤ j ∧ j ≤ g.je_pe) :
    make_coeff_surf_press g i j 0 1 =
      g.maskM i j * g.maskM (i - 1) j * g.hu (i - 1) j / g.dxu (i - 1) /
        g.dxt i / g.cost j ^ 2 := by
  simp only [make_coeff_surf_press, if_pos h]
  norm_num

theorem cf_entry_north (g : GridP) (i j : ℤ)
    (h : g.is_pe ≤ i ∧ i ≤ g.ie_pe ∧ g.js_pe ≤ j ∧ j ≤ g.je_pe) :
    make_coeff_surf_press g i j 1 2 =
      g.maskM i j * g.maskM i (j + 1) * g.hv i j / g.dyu j / g.dyt j *
        g.cosu j / g.cost j := by
  simp only [make_coeff_surf_press, if_pos h]
  norm_num

theorem cf_entry_south (g : GridP) (i j : ℤ)
    (h : g.is_pe ≤ i ∧ i ≤ g.ie_pe ∧ g.js_pe ≤ j ∧ j ≤ g.je_pe) :
    make_coeff_surf_press g i j 1 0 =
      g.maskM i j * g.maskM i (j - 1) * g.hv i (j - 1) / g.dyu (j - 1) /
        g.dyt j * g.cosu (j - 1) / g.cost j := by
  simp only [make_coeff_surf_press, if_pos h]
  norm_num

theorem cf_entry_corner (g : GridP) (i j ii jj : ℤ)
    (hii : ii = 0 ∨ ii = 2) (hjj : jj = 0 ∨ jj = 2) :
    make_coeff_surf_press g i j ii jj = 0 := by
  unfold make_coeff_surf_press
  rcases hii with rfl | rfl <;> rcases hjj with rfl | rfl <;>
    (split
     · norm_num
     · rfl)

theorem cf_entry_center (g : GridP) (i j : ℤ)
    (h : g.is_pe ≤ i ∧ i ≤ g.ie_pe ∧ g.js_pe ≤ j ∧ j ≤ g.je_pe) :
    make_coeff_surf_press g i j 1 1 =
      -(g.maskM i j * g.maskM (i + 1) j * g.hu i j / g.dxu i / g.dxt i /
          g.cost j ^ 2)
        - g.maskM i j * g.maskM (i - 1) j * g.hu (i - 1) j / g.dxu (i - 1) /
            g.dxt i / g.cost j ^ 2
        - g.maskM i j * g.maskM i (j + 1) * g.hv i j / g.dyu j / g.dyt j *
            g.cosu j / g.cost j
        - g.maskM i j * g.maskM i (j - 1) * g.hv i (j - 1) / g.dyu (j - 1) /
            g.dyt j * g.cosu (j - 1) / g.cost j
        + (if g.enable_free_surface then
            -1 / (g.grav * g.dt_mom ^ 2) * g.maskM i j
          else 0) := by
  simp only [make_coeff_surf_press, if_pos h]
  norm_num

theorem coeff_kernel_area_symm (g : GridP)
    (hdxu : ∀ i, g.dxu i ≠ 0) (hdxt : ∀ i, g.dxt i ≠ 0)
    (hdyu : ∀ j, g.dyu j ≠ 0) (hdyt : ∀ j, g.dyt j ≠ 0)
    (hcost : ∀ j, g.cost j ≠ 0)
    (i j i2 j2 ii jj : ℤ)
    (hp : g.is_pe ≤ i ∧ i ≤ g.ie_pe ∧ g.js_pe ≤ j ∧ j ≤ g.je_pe)
    (hq : g.is_pe ≤ i2 ∧ i2 ≤ g.ie_pe ∧ g.js_pe ≤ j2 ∧ j2 ≤ g.je_pe)
    (hii : 0 ≤ ii) (hii2 : ii ≤ 2) (hjj : 0 ≤ jj) (hjj2 : jj ≤ 2)
    (hi2 : i2 = i + ii - 1) (hj2 : j2 = j + jj - 1) :
    g.dxt i * g.dyt j * g.cost j * make_coeff_surf_press g i j ii jj =
      g.dxt i2 * g.dyt j2 * g.cost j2 *
        make_coeff_surf_press g i2 j2 (2 - ii) (2 - jj) := by
  subst hi2
  subst hj2
  interval_cases ii <;> interval_cases jj
  -- (0,0) corner
  · rw [cf_entry_corner g _ _ _ _ (Or.inl rfl) (Or.inl rfl),
      cf_entry_corner g _ _ _ _ (Or.inr (by norm_num)) (Or.inr (by norm_num))]
    ring
  -- (0,1) west coupling
  · have ei : i + 0 - 1 = i - 1 := by ring
    have ej : j + 1 - 1 = j := by ring
    rw [ei, ej] at hq ⊢
    have h21 : (2 : ℤ) - 0 = 2 := by norm_num
    have h22 : (2 : ℤ) - 1 = 1 := by norm_num
    rw [h21, h22, cf_entry_west g i j hp, cf_entry_east g (i - 1) j hq,
      sub_add_cancel]
    have e1 := hdxt (i - 1)
    have e1b := hdxt (-1 + i)
    have e2 := hdxt i
    have c2 := hcost j
    have u1 := hdxu (i - 1)
    have u1b := hdxu (-1 + i)
    field_simp
    ring
  -- (0,2) corner
  · rw [cf_entry_corner g _ _ _ _ (Or.inl rfl) (Or.inr rfl),
      cf_entry_corner g _ _ _ _ (Or.inr (by norm_num)) (Or.inl (by norm_num))]
    ring
  -- (1,0) south coupling
  · have ei : i + 1 - 1 = i := by ring
    have ej : j + 0 - 1 = j - 1 := by ring
    rw [ei, ej] at hq ⊢
    have h21 : (2 : ℤ) - 1 = 1 := by norm_num
    have h22 : (2 : ℤ) - 0 = 2 := by norm_num
    rw [h21, h22, cf_entry_south g i j hp, cf_entry_north g i (j - 1) hq,
      sub_add_cancel]
    have f1 := hdyt (j - 1)
    have f1b := hdyt (-1 + j)
    have f2 := hdyt j
    have c1 := hcost (j - 1)
    have c1b := hcost (-1 + j)
    have c2 := hcost j
    have v1 := hdyu (j - 1)
    have v1b := hdyu (-1 + j)
    have v2 := hdyu j
    field_simp
    ring
  -- (1,1) diagonal
  · have ei : i + 1 - 1 = i := by ring
    have ej : j + 1 - 1 = j := by ring
    rw [ei, ej] at hq ⊢
    have h21 : (2 : ℤ) - 1 = 1 := by norm_num
    rw [h21]
  -- (1,2) north coupling
  · have ei : i + 1 - 1 = i := by ring
    have ej : j + 2 - 1 = j + 1 := by ring
    rw [ei, ej] at hq ⊢
    have h21 : (2 : ℤ) - 1 = 1 := by norm_num
    have h22 : (2 : ℤ) - 2 = 0 := by norm_num
    rw [h21, h22, cf_entry_north g i j hp, cf_entry_south g i (j + 1) hq,
      add_sub_cancel_right]
    have f2 := hdyt j
    have f3 := hdyt (j + 1)
    have f3b := hdyt (1 + j)
    have c2 := hcost j
    have c3 := hcost (j + 1)
    have c3b := hcost (1 + j)
    have v2 := hdyu j
    field_simp
    ring
  -- (2,0) corner
  · rw [cf_entry_corner g _ _ _ _ (Or.inr rfl) (Or.inl rfl),
      cf_entry_corner g _ _ _ _ (Or.inl (by norm_num)) (Or.inr (by norm_num))]
    ring
  -- (2,1) east coupling
  · have ei : i + 2 - 1 = i + 1 := by ring
    have ej : j + 1 - 1 = j := by ring
    rw [ei, ej] at hq ⊢
    have h21 : (2 : ℤ) - 2 = 0 := by norm_num
    have h22 : (2 : ℤ) - 1 = 1 := by norm_num
    rw [h21, h22, cf_entry_east g i j hp, cf_entry_west g (i + 1) j hq,
      add_sub_cancel_right]
    have e2 := hdxt i
    have e3 := hdxt (i + 1)
    have e3b := hdxt (1 + i)
    have c2 := hcost j
    have u2 := hdxu i
    field_simp
    ring
  -- (2,2) corner
  · rw [cf_entry_corner g _ _ _ _ (Or.inr rfl) (Or.inr rfl),
      cf_entry_corner g _ _ _ _ (Or.inl (by norm_num)) (Or.inl (by norm_num))]
    ring

/-- Expansion of the area-weighted dot of a field against an applied field:
the quadruple sum over interior cells and stencil offsets. -/
theorem dot_area_apply_expand_right (g : GridP) (cf : ℤ → ℤ → ℤ → ℤ → ℚ)
    (a b : ℤ → ℤ → ℚ) :
    dot_area g a (apply_op cf b) =
      ∑ x ∈ (Finset.Icc g.is_pe g.ie_pe ×ˢ Finset.Icc g.js_pe g.je_pe) ×ˢ
          (Finset.Icc (0 : ℤ) 2 ×ˢ Finset.Icc (0 : ℤ) 2),
        g.dxt x.1.1 * g.dyt x.1.2 * g.cost x.1.2 * a x.1.1 x.1.2 *
          cf x.1.1 x.1.2 x.2.1 x.2.2 *
          b (x.1.1 + x.2.1 - 1) (x.1.2 + x.2.2 - 1) := by
  simp only [dot_area, apply_op, Finset.sum_product, Finset.mul_sum]
  exact Finset.sum_congr rfl fun i _ => Finset.sum_congr rfl fun j _ =>
    Finset.sum_congr rfl fun ii _ => Finset.sum_congr rfl fun jj _ => by ring

/-- Expansion of the area-weighted dot of an applied field against a field:
the quadruple sum over interior cells and stencil offsets. -/
theorem dot_area_apply_expand_left (g : GridP) (cf : ℤ → ℤ → ℤ → ℤ → ℚ)
    (a b : ℤ → ℤ → ℚ) :
    dot_area g (apply_op cf a) b =
      ∑ x ∈ (Finset.Icc g.is_pe g.ie_pe ×ˢ Finset.Icc g.js_pe g.je_pe) ×ˢ
          (Finset.Icc (0 : ℤ) 2 ×ˢ Finset.Icc (0 : ℤ) 2),
        g.dxt x.1.1 * g.dyt x.1.2 * g.cost x.1.2 *
          cf x.1.1 x.1.2 x.2.1 x.2.2 *
          a (x.1.1 + x.2.1 - 1) (x.1.2 + x.2.2 - 1) * b x.1.1 x.1.2 := by
  simp only [dot_area, apply_op, Finset.sum_product, Finset.mul_sum,
    Finset.sum_mul]
  exact Finset.sum_congr rfl fun i _ => Finset.sum_congr rfl fun j _ =>
    Finset.sum_congr rfl fun ii _ => Finset.sum_congr rfl fun jj _ => by ring

/-- C6 amended: the operator built by `make_coeff_surf_press` is symmetric
under the T-cell-area-weighted interior dot product (weights
`dxt[i]*dyt[j]*cost[j]`), for every grid whose spacings and metric factors
are nonzero (the spec's positivity invariant) and all fields vanishing
outside the interior; under the plain unweighted interior dot the symmetry
fails on non-uniform grids (see the counterexample). -/
theorem make_coeff_surf_press_area_symmetric (g : GridP) (a b : ℤ → ℤ → ℚ)
    (hdxu : ∀ i, g.dxu i ≠ 0) (hdxt : ∀ i, g.dxt i ≠ 0)
    (hdyu : ∀ j, g.dyu j ≠ 0) (hdyt : ∀ j, g.dyt j ≠ 0)
    (hcost : ∀ j, g.cost j ≠ 0)
    (ha : ∀ i j, a i j ≠ 0 →
      g.is_pe ≤ i ∧ i ≤ g.ie_pe ∧ g.js_pe ≤ j ∧ j ≤ g.je_pe)
    (hb : ∀ i j, b i j ≠ 0 →
      g.is_pe ≤ i ∧ i ≤ g.ie_pe ∧ g.js_pe ≤ j ∧ j ≤ g.je_pe) :
    dot_area g a (apply_op (make_coeff_surf_press g) b) =
      dot_area g (apply_op (make_coeff_surf_press g) a) b := by
  rw [dot_area_apply_expand_right, dot_area_apply_expand_left]
  refine Finset.sum_bij_ne_zero
    (fun x _ _ =>
      ((x.1.1 + x.2.1 - 1, x.1.2 + x.2.2 - 1), (2 - x.2.1, 2 - x.2.2)))
    ?_ ?_ ?_ ?_
  · rintro ⟨⟨i, j⟩, ⟨ii, jj⟩⟩ hx hfx
    simp only [Finset.mem_product, Finset.mem_Icc] at hx ⊢
    have hbq : b (i + ii - 1) (j + jj - 1) ≠ 0 := by
      intro h0
      apply hfx
      dsimp only
      rw [h0]
      ring
    have hqI := hb _ _ hbq
    omega
  · rintro ⟨⟨i1, j1⟩, ⟨ii1, jj1⟩⟩ _ _ ⟨⟨i2, j2⟩, ⟨ii2, jj2⟩⟩ _ _ heq
    simp only [Prod.mk.injEq] at heq ⊢
    omega
  · rintro ⟨⟨i, j⟩, ⟨ii, jj⟩⟩ hy hgy
    simp only [Finset.mem_product, Finset.mem_Icc] at hy
    have haq : a (i + ii - 1) (j + jj - 1) ≠ 0 := by
      intro h0
      apply hgy
      dsimp only
      rw [h0]
      ring
    have hqI := ha _ _ haq
    have hker := coeff_kernel_area_symm g hdxu hdxt hdyu hdyt hcost
      i j (i + ii - 1) (j + jj - 1) ii jj
      ⟨hy.1.1.1, hy.1.1.2, hy.1.2.1, hy.1.2.2⟩ hqI
      hy.2.1.1 hy.2.1.2 hy.2.2.1 hy.2.2.2 rfl rfl
    have harg : i + ii - 1 + (2 - ii) - 1 = i := by ring
    have harg2 : j + jj - 1 + (2 - jj) - 1 = j := by ring
    have key : g.dxt (i + ii - 1) * g.dyt (j + jj - 1) * g.cost (j + jj - 1) *
        a (i + ii - 1) (j + jj - 1) *
        make_coeff_surf_press g (i + ii - 1) (j + jj - 1) (2 - ii) (2 - jj) *
        b (i + ii - 1 + (2 - ii) - 1) (j + jj - 1 + (2 - jj) - 1) =
        g.dxt i * g.dyt j * g.cost j * make_coeff_surf_press g i j ii jj *
          a (i + ii - 1) (j + jj - 1) * b i j := by
      rw [harg, harg2]
      calc g.dxt (i + ii - 1) * g.dyt (j + jj - 1) * g.cost (j + jj - 1) *
            a (i + ii - 1) (j + jj - 1) *
            make_coeff_surf_press g (i + ii - 1) (j + jj - 1)
              (2 - ii) (2 - jj) * b i j
          = g.dxt (i + ii - 1) * g.dyt (j + jj - 1) * g.cost (j + jj - 1) *
              make_coeff_surf_press g (i + ii - 1) (j + jj - 1)
                (2 - ii) (2 - jj) *
              (a (i + ii - 1) (j + jj - 1) * b i j) := by ring
        _ = g.dxt i * g.dyt j * g.cost j * make_coeff_surf_press g i j ii jj *
              (a (i + ii - 1) (j + jj - 1) * b i j) := by rw [← hker]
        _ = g.dxt i * g.dyt j * g.cost j * make_coeff_surf_press g i j ii jj *
              a (i + ii - 1) (j + jj - 1) * b i j := by ring
    refine ⟨((i + ii - 1, j + jj - 1), (2 - ii, 2 - jj)), ?_, ?_, ?_⟩
    · simp only [Finset.mem_product, Finset.mem_Icc]
      omega
    · dsimp only
      rw [key]
      exact hgy
    · dsimp only
      simp only [Prod.mk.injEq]
      refine ⟨⟨by ring, by ring⟩, by ring, by ring⟩
  · rintro ⟨⟨i, j⟩, ⟨ii, jj⟩⟩ hx hfx
    simp only [Finset.mem_product, Finset.mem_Icc] at hx
    have hbq : b (i + ii - 1) (j + jj - 1) ≠ 0 := by
      intro h0
      apply hfx
      dsimp only
      rw [h0]
      ring
    have hqI := hb _ _ hbq
    have hker := coeff_kernel_area_symm g hdxu hdxt hdyu hdyt hcost
      i j (i + ii - 1) (j + jj - 1) ii jj
      ⟨hx.1.1.1, hx.1.1.2, hx.1.2.1, hx.1.2.2⟩ hqI
      hx.2.1.1 hx.2.1.2 hx.2.2.1 hx.2.2.2 rfl rfl
    have harg : i + ii - 1 + (2 - ii) - 1 = i := by ring
    have harg2 : j + jj - 1 + (2 - jj) - 1 = j := by ring
    dsimp only
    rw [harg, harg2]
    calc g.dxt i * g.dyt j * g.cost j * a i j *
          make_coeff_surf_press g i j ii jj * b (i + ii - 1) (j + jj - 1)
        = g.dxt i * g.dyt j * g.cost j * make_coeff_surf_press g i j ii jj *
            (a i j * b (i + ii - 1) (j + jj - 1)) := by ring
      _ = g.dxt (i + ii - 1) * g.dyt (j + jj - 1) * g.cost (j + jj - 1) *
            make_coeff_surf_press g (i + ii - 1) (j + jj - 1)
              (2 - ii) (2 - jj) *
            (a i j * b (i + ii - 1) (j + jj - 1)) := by rw [hker]
      _ = g.dxt (i + ii - 1) * g.dyt (j + jj - 1) * g.cost (j + jj - 1) *
            make_coeff_surf_press g (i + ii - 1) (j + jj - 1)
              (2 - ii) (2 - jj) * a i j * b (i + ii - 1) (j + jj - 1) := by
          ring

/-- C6 witness: the area-weighted symmetry at the concrete counterexample
grid, where the plain dot product is asymmetric (`1` versus `1/2`) but the
area-weighted one balances. -/
theorem make_coeff_surf_press_area_symmetric_witness :
    dot_area cexGrid cexA (apply_op (make_coeff_surf_press cexGrid) cexB) =
      dot_area cexGrid (apply_op (make_coeff_surf_press cexGrid) cexA) cexB :=
  make_coeff_surf_press_area_symmetric cexGrid cexA cexB
    (fun _ => one_ne_zero)
    (by
      intro i
      by_cases h : i = 3 <;> simp [cexGrid, h])
    (fun _ => one_ne_zero)
    (fun _ => one_ne_zero)
    (fun _ => one_ne_zero)
    (by
      intro i j h
      by_cases hc : i = 2 ∧ j = 2
      · obtain ⟨rfl, rfl⟩ := hc
        refine ⟨by norm_num [cexGrid], by norm_num [cexGrid],
          by norm_num [cexGrid], by norm_num [cexGrid]⟩
      · simp [cexA, hc] at h)
    (by
      intro i j h
      by_cases hc : i = 3 ∧ j = 2
      · obtain ⟨rfl, rfl⟩ := hc
        refine ⟨by norm_num [cexGrid], by norm_num [cexGrid],
          by norm_num [cexGrid], by norm_num [cexGrid]⟩
      · simp [cexB, hc] at h)

/-! step-evaluation helper lemmas -/

theorem step_dir_east_fwd (bmap : ℤ × ℤ → ℤ) (x y : ℤ)
    (h1 : bmap (x + 1, y + 1) = -1) (h2 : bmap (x + 1, y) = 1) :
    perimeter_step_dir bmap (x, y) (1, 0) = some (1, 0) := by
  simp only [perimeter_step_dir, Prod.mk.injEq]
  norm_num [h1, h2]

theorem step_dir_east_turn (bmap : ℤ × ℤ → ℤ) (x y : ℤ)
    (h1 : bmap (x + 1, y + 1) = -1) (h2 : bmap (x + 1, y) = -1) :
    perimeter_step_dir bmap (x, y) (1, 0) = some (0, -1) := by
  simp only [perimeter_step_dir, Prod.mk.injEq]
  norm_num [h1, h2]

theorem step_dir_south_fwd (bmap : ℤ × ℤ → ℤ) (x y : ℤ)
    (h1 : bmap (x + 1, y) = -1) (h2 : bmap (x, y) = 1) :
    perimeter_step_dir bmap (x, y) (0, -1) = some (0, -1) := by
  simp only [perimeter_step_dir, Prod.mk.injEq]
  norm_num [h1, h2]

theorem step_dir_south_turn (bmap : ℤ × ℤ → ℤ) (x y : ℤ)
    (h1 : bmap (x + 1, y) = -1) (h2 : bmap (x, y) = -1) :
    perimeter_step_dir bmap (x, y) (0, -1) = some (-1, 0) := by
  simp only [perimeter_step_dir, Prod.mk.injEq]
  norm_num [h1, h2]

theorem step_dir_west_fwd (bmap : ℤ × ℤ → ℤ) (x y : ℤ)
    (h1 : bmap (x, y) = -1) (h2 : bmap (x, y + 1) = 1) :
    perimeter_step_dir bmap (x, y) (-1, 0) = some (-1, 0) := by
  simp only [perimeter_step_dir, Prod.mk.injEq]
  norm_num [h1, h2]

theorem step_dir_west_turn (bmap : ℤ × ℤ → ℤ) (x y : ℤ)
    (h1 : bmap (x, y) = -1) (h2 : bmap (x, y + 1) = -1) :
    perimeter_step_dir bmap (x, y) (-1, 0) = some (0, 1) := by
  simp only [perimeter_step_dir, Prod.mk.injEq]
  norm_num [h1, h2]

theorem step_dir_north_fwd (bmap : ℤ × ℤ → ℤ) (x y : ℤ)
    (h1 : bmap (x, y + 1) = -1) (h2 : bmap (x + 1, y + 1) = 1) :
    perimeter_step_dir bmap (x, y) (0, 1) = some (0, 1) := by
  simp only [perimeter_step_dir, Prod.mk.injEq]
  norm_num [h1, h2]

theorem sqmap_land (L : ℕ) (x y : ℤ)
    (h : 5 ≤ x ∧ x ≤ (L : ℤ) + 4 ∧ 5 ≤ y ∧ y ≤ (L : ℤ) + 4) :
    squareIslandMap L (x, y) = 1 := by
  simp only [squareIslandMap]
  rw [if_pos h]

theorem sqmap_ring (L : ℕ) (x y : ℤ)
    (hn : ¬(5 ≤ x ∧ x ≤ (L : ℤ) + 4 ∧ 5 ≤ y ∧ y ≤ (L : ℤ) + 4))
    (h : 4 ≤ x ∧ x ≤ (L : ℤ) + 5 ∧ 4 ≤ y ∧ y ≤ (L : ℤ) + 5) :
    squareIslandMap L (x, y) = -1 := by
  simp only [squareIslandMap]
  rw [if_neg hn, if_pos h]

theorem square_walk_step (L t : ℕ) (hL : 1 ≤ L) (ht : t ≤ 4 * L - 2) :
    perimeter_step_dir (squareIslandMap L) (squareTrajPos L t)
        (squareTrajDir L t) = some (squareTrajDir L (t + 1)) ∧
      squareTrajPos L (t + 1)
        = ((squareTrajPos L t).1 + (squareTrajDir L (t + 1)).1,
           (squareTrajPos L t).2 + (squareTrajDir L (t + 1)).2) := by
  by_cases hA : t < L - 1
  · -- east leg, go forward
    have c1 : t ≤ L - 1 := by omega
    have c2 : t + 1 ≤ L - 1 := by omega
    simp only [squareTrajPos, squareTrajDir, c1, c2, if_true]
    refine ⟨step_dir_east_fwd _ _ _ ?_ ?_, ?_⟩
    · exact sqmap_ring L _ _ (by omega) (by omega)
    · exact sqmap_land L _ _ (by omega)
    · simp only [Prod.mk.injEq]
      constructor <;> push_cast <;> ring
  by_cases hA2 : t = L - 1
  · -- north-east corner, turn right to south
    subst hA2
    have c1 : L - 1 ≤ L - 1 := le_refl _
    have c2 : ¬(L - 1 + 1 ≤ L - 1) := by omega
    have c3 : L - 1 + 1 ≤ 2 * L - 1 := by omega
    simp only [squareTrajPos, squareTrajDir, c1, c2, c3, if_true, if_false]
    refine ⟨step_dir_east_turn _ _ _ ?_ ?_, ?_⟩
    · exact sqmap_ring L _ _ (by omega) (by omega)
    · exact sqmap_ring L _ _ (by omega) (by omega)
    · simp only [Prod.mk.injEq]
      constructor <;> push_cast <;> omega
  by_cases hB : t < 2 * L - 1
  · -- east side, go south
    have c1 : ¬(t ≤ L - 1) := by omega
    have c2 : t ≤ 2 * L - 1 := by omega
    have c3 : ¬(t + 1 ≤ L - 1) := by omega
    have c4 : t + 1 ≤ 2 * L - 1 := by omega
    simp only [squareTrajPos, squareTrajDir, c1, c2, c3, c4, if_true, if_false]
    refine ⟨step_dir_south_fwd _ _ _ ?_ ?_, ?_⟩
    · exact sqmap_ring L _ _ (by omega) (by omega)
    · exact sqmap_land L _ _ (by omega)
    · simp only [Prod.mk.injEq]
      constructor <;> push_cast <;> omega
  by_cases hB2 : t = 2 * L - 1
  · -- south-east corner, turn right to west
    subst hB2
    have c1 : ¬(2 * L - 1 ≤ L - 1) := by omega
    have c2 : 2 * L - 1 ≤ 2 * L - 1 := le_refl _
    have c3 : ¬(2 * L - 1 + 1 ≤ L - 1) := by omega
    have c4 : ¬(2 * L - 1 + 1 ≤ 2 * L - 1) := by omega
    have c5 : 2 * L - 1 + 1 ≤ 3 * L - 1 := by omega
    simp only [squareTrajPos, squareTrajDir, c1, c2, c3, c4, c5, if_true,
      if_false]
    refine ⟨?_, ?_⟩
    · have hy : 2 * (L : ℤ) + 3 - ((2 * L - 1 : ℕ) : ℤ) = 4 := by
        push_cast
        omega
      rw [hy]
      refine step_dir_south_turn _ _ _ ?_ ?_
      · exact sqmap_ring L _ _ (by omega) (by omega)
      · exact sqmap_ring L _ _ (by omega) (by omega)
    · simp only [Prod.mk.injEq]
      constructor <;> push_cast <;> omega
  by_cases hC : t < 3 * L - 1
  · -- south side, go west
    have c1 : ¬(t ≤ L - 1) := by omega
    have c2 : ¬(t ≤ 2 * L - 1) := by omega
    have c3 : t ≤ 3 * L - 1 := by omega
    have c4 : ¬(t + 1 ≤ L - 1) := by omega
    have c5 : ¬(t + 1 ≤ 2 * L - 1) := by omega
    have c6 : t + 1 ≤ 3 * L - 1 := by omega
    simp only [squareTrajPos, squareTrajDir, c1, c2, c3, c4, c5, c6, if_true,
      if_false]
    refine ⟨step_dir_west_fwd _ _ _ ?_ ?_, ?_⟩
    · exact sqmap_ring L _ _ (by omega) (by omega)
    · exact sqmap_land L _ _ (by omega)
    · simp only [Prod.mk.injEq]
      constructor <;> push_cast <;> omega
  by_cases hC2 : t = 3 * L - 1
  · -- south-west corner, turn right to north
    subst hC2
    have c1 : ¬(3 * L - 1 ≤ L - 1) := by omega
    have c2 : ¬(3 * L - 1 ≤ 2 * L - 1) := by omega
    have c3 : 3 * L - 1 ≤ 3 * L - 1 := le_refl _
    have c4 : ¬(3 * L - 1 + 1 ≤ L - 1) := by omega
    have c5 : ¬(3 * L - 1 + 1 ≤ 2 * L - 1) := by omega
    have c6 : ¬(3 * L - 1 + 1 ≤ 3 * L - 1) := by omega
    simp only [squareTrajPos, squareTrajDir, c1, c2, c3, c4, c5, c6, if_true,
      if_false]
    refine ⟨?_, ?_⟩
    · have hx : 3 * (L : ℤ) + 3 - ((3 * L - 1 : ℕ) : ℤ) = 4 := by
        push_cast
        omega
      rw [hx]
      refine step_dir_west_turn _ _ _ ?_ ?_
      · exact sqmap_ring L _ _ (by omega) (by omega)
      · exact sqmap_ring L _ _ (by omega) (by omega)
    · simp only [Prod.mk.injEq]
      constructor <;> push_cast <;> omega
  · -- west side, go north
    have c1 : ¬(t ≤ L - 1) := by omega
    have c2 : ¬(t ≤ 2 * L - 1) := by omega
    have c3 : ¬(t ≤ 3 * L - 1) := by omega
    have c4 : ¬(t + 1 ≤ L - 1) := by omega
    have c5 : ¬(t + 1 ≤ 2 * L - 1) := by omega
    have c6 : ¬(t + 1 ≤ 3 * L - 1) := by omega
    simp only [squareTrajPos, squareTrajDir, c1, c2, c3, c4, c5, c6, if_true,
      if_false]
    refine ⟨step_dir_north_fwd _ _ _ ?_ ?_, ?_⟩
    · exact sqmap_ring L _ _ (by omega) (by omega)
    · exact sqmap_land L _ _ (by omega)
    · simp only [Prod.mk.injEq]
      constructor <;> push_cast <;> omega

theorem square_traj_ne_start (L s : ℕ) (hL : 1 ≤ L) (hs : s ≤ 4 * L - 2) :
    squareTrajPos L s ≠ squareIslandStartPos L := by
  unfold squareTrajPos squareIslandStartPos
  split_ifs <;>
    (intro h
     rw [Prod.mk.injEq] at h
     omega)

theorem perimeter_walk_final_pos (boundary_map : ℤ × ℤ → ℤ) (nx : ℤ)
    (startPos : ℤ × ℤ) :
    ∀ (fuel : ℕ) (ij Dir : ℤ × ℤ) (n : ℕ) (r : ℕ × (ℤ × ℤ) × (ℤ × ℤ)),
      perimeter_walk boundary_map false nx startPos fuel ij Dir n = some r →
      r.2.1 = startPos := by
  intro fuel
  induction fuel with
  | zero =>
    intro ij Dir n r h
    simp [perimeter_walk] at h
  | succ f ih =>
    intro ij Dir n r h
    rw [perimeter_walk] at h
    cases hstep : perimeter_step_dir boundary_map ij Dir with
    | none =>
      rw [hstep] at h
      simp at h
    | some Dir2 =>
      rw [hstep] at h
      simp only [Bool.false_eq_true, false_and, if_false, or_self] at h
      by_cases hc : startPos = (ij.1 + Dir2.1, ij.2 + Dir2.2)
      · rw [if_pos hc] at h
        simp only [Option.some.injEq] at h
        rw [← h]
        exact hc.symm
      · rw [if_neg hc] at h
        exact ih _ _ _ _ h

theorem square_walk_run (L : ℕ) (hL : 1 ≤ L) (nx : ℤ) :
    ∀ (k t fuel : ℕ), t + k = 4 * L - 1 → 1 ≤ k → k ≤ fuel →
      perimeter_walk (squareIslandMap L) false nx (squareIslandStartPos L)
          fuel (squareTrajPos L t) (squareTrajDir L t) (t + 1)
        = some (4 * L - 1, squareIslandStartPos L, (0, 1)) := by
  intro k
  induction k with
  | zero =>
    intro t fuel h h1 h2
    omega
  | succ k ih =>
    intro t fuel hsum hk1 hfuel
    have ht : t ≤ 4 * L - 2 := by omega
    obtain ⟨f, rfl⟩ : ∃ f, fuel = f + 1 := ⟨fuel - 1, by omega⟩
    obtain ⟨hstep, hmove⟩ := square_walk_step L t hL ht
    rw [perimeter_walk, hstep]
    simp only [Bool.false_eq_true, false_and, if_false, or_self]
    rw [← hmove]
    by_cases hend : k = 0
    · subst hend
      have ht1 : t + 1 = 4 * L - 1 := by omega
      have hfin : squareTrajPos L (t + 1) = squareIslandStartPos L := by
        rw [ht1]
        have c1 : ¬(4 * L - 1 ≤ L - 1) := by omega
        have c2 : ¬(4 * L - 1 ≤ 2 * L - 1) := by omega
        have c3 : ¬(4 * L - 1 ≤ 3 * L - 1) := by omega
        unfold squareTrajPos squareIslandStartPos
        rw [if_neg c1, if_neg c2, if_neg c3, Prod.mk.injEq]
        refine ⟨rfl, ?_⟩
        push_cast
        omega
      have hdir : squareTrajDir L (t + 1) = (0, 1) := by
        rw [ht1]
        have c1 : ¬(4 * L - 1 ≤ L - 1) := by omega
        have c2 : ¬(4 * L - 1 ≤ 2 * L - 1) := by omega
        have c3 : ¬(4 * L - 1 ≤ 3 * L - 1) := by omega
        simp only [squareTrajDir, c1, c2, c3, if_false]
      rw [if_pos hfin.symm, hfin, hdir, ht1]
    · have hne : squareIslandStartPos L ≠ squareTrajPos L (t + 1) :=
        (square_traj_ne_start L (t + 1) hL (by omega)).symm
      rw [if_neg hne]
      exact ih (t + 1) f (by omega) (by omega) (by omega)

/-- C5 amended: with periodic wrap disabled, the perimeter walk stops
exactly when the walker position returns to the starting position — the
direction is not part of the termination test (first conjunct, for every
map) — and for the synthetic `L x L` square island it terminates after
`4L - 1` loop moves (the `4L`-th perimeter edge having been traversed
during start-up), with the final loop counter `n = 4L - 1`, at the starting
position, travelling north `(0, 1)` rather than in the starting direction
east `(1, 0)` (third conjunct). -/
theorem perimeter_walk_square_island (L : ℕ) (hL : 1 ≤ L) (nx : ℤ)
    (fuel : ℕ) (hfuel : 4 * L - 1 ≤ fuel) :
    (∀ (bmap : ℤ × ℤ → ℤ) (nx2 : ℤ) (sp ij Dir : ℤ × ℤ) (f n : ℕ)
        (r : ℕ × (ℤ × ℤ) × (ℤ × ℤ)),
        perimeter_walk bmap false nx2 sp f ij Dir n = some r →
        r.2.1 = sp) ∧
      perimeter_walk (squareIslandMap L) false nx (squareIslandStartPos L)
          fuel (5, (L : ℤ) + 4) (1, 0) 1
        = some (4 * L - 1, squareIslandStartPos L, (0, 1)) ∧
      ((0 : ℤ), (1 : ℤ)) ≠ ((1 : ℤ), (0 : ℤ)) := by
  refine ⟨fun bmap nx2 sp ij Dir f n r h =>
    perimeter_walk_final_pos bmap nx2 sp f ij Dir n r h, ?_, by decide⟩
  have h0pos : squareTrajPos L 0 = (5, (L : ℤ) + 4) := by
    have c1 : 0 ≤ L - 1 := by omega
    simp [squareTrajPos, c1]
  have h0dir : squareTrajDir L 0 = (1, 0) := by
    have c1 : 0 ≤ L - 1 := by omega
    simp [squareTrajDir, c1]
  have := square_walk_run L hL nx (4 * L - 1) 0 fuel (by omega) (by omega)
    (by omega)
  rw [h0pos, h0dir] at this
  exact this

/-- C5 counterexample: the claim states that the walk stops exactly when
the walker has returned to its starting position and starting direction.
On the concrete `1 x 1` square island the embedded walk terminates (after 3
loop moves, 4 perimeter edges) at the starting position `(4, 5)` but with
direction `(0, 1)` (north), not the starting direction `(1, 0)` (east): the
code tests only the position (lines 158 and 172), never the direction. -/
theorem perimeter_walk_direction_counterexample :
    perimeter_walk (squareIslandMap 1) false 10 (4, 5) 10 (5, 5) (1, 0) 1
        = some (3, (4, 5), (0, 1)) ∧
      ((0 : ℤ), (1 : ℤ)) ≠ ((1 : ℤ), (0 : ℤ)) := by
  constructor
  · decide
  · decide

/-- C5 witness: the amended statement at the concrete island size `L = 2`
with fuel 7. -/
theorem perimeter_walk_square_island_witness :
    (∀ (bmap : ℤ × ℤ → ℤ) (nx2 : ℤ) (sp ij Dir : ℤ × ℤ) (f n : ℕ)
        (r : ℕ × (ℤ × ℤ) × (ℤ × ℤ)),
        perimeter_walk bmap false nx2 sp f ij Dir n = some r →
        r.2.1 = sp) ∧
      perimeter_walk (squareIslandMap 2) false 10 (squareIslandStartPos 2)
          7 (5, ((2 : ℕ) : ℤ) + 4) (1, 0) 1
        = some (4 * 2 - 1, squareIslandStartPos 2, (0, 1)) ∧
      ((0 : ℤ), (1 : ℤ)) ≠ ((1 : ℤ), (0 : ℤ)) :=
  perimeter_walk_square_island 2 (by decide) 10 7 (by decide)

end ClimateDSL
